import Mathlib

/-!
Verification of the session context and state tracker of the
claude-metacognition hook scripts.

The Python sources are shallowly embedded:

* Python `dict` objects (insertion ordered) are modelled as association
  lists `List (String × α)` with unique keys; `d[k] = v` updates the value
  in place when `k` is present and appends at the end otherwise (`aset`),
  and `k in d` / `d.get(k)` are `alookup`.
* `list.sort` / `sorted` (CPython timsort, a stable sort) is modelled by
  `List.insertionSort`, which is also stable; a stable sort with respect to
  a total preorder is extensionally unique, so the two agree as functions.
* `list(set(xs))` produces the distinct elements of `xs` in an order that
  CPython leaves unspecified (hash order); it is modelled by an arbitrary
  parameter `setU : List String → List String`, constrained where a claim
  needs it to preserve elements (`toFinset`) and return no duplicates.
* timestamps (`datetime.fromisoformat(...).timestamp()` and `st_mtime`)
  live on one abstract integer timeline; ISO-8601 parsing, `%H:%M`
  formatting, `datetime.now()`, the `rglob` file walk and per-file `stat`
  are oracle fields of an `Env` record, since they read the clock and the
  filesystem.
* file reads are a three-way `FileRead` datum: the file is missing, it is
  unreadable (`OSError` on `read_text`), or it has string content, which a
  `parse` oracle (modelling `json.loads` plus decoding into the record
  shape) may accept or reject.
-/

/-- Replace a backslash by a forward slash, other characters unchanged;
the character-wise action of Python `str.replace("\\", "/")`. -/
def sepFix (c : Char) : Char := if c = '\\' then '/' else c

/-- Model of Python `s.replace("\\", "/")` (the pattern is a single
character, so the replacement acts character-wise). -/
def normSep (s : String) : String := ⟨s.data.map sepFix⟩

/-- Truthiness of an optional string, as Python `if s:`: `None` and the
empty string are falsy.  `none` covers both an absent key and a JSON
`null` value, which every reader in the sources treats identically
(all reads go through `dict.get` with a `None` default). -/
def truthy (o : Option String) : Bool :=
  match o with
  | none => false
  | some s => !(s == "")

/-- Keys of an association list, in insertion order, as Python
`dict.keys()`. -/
def keys {α : Type} (m : List (String × α)) : List String := m.map Prod.fst

/-- Lookup in an association list, as Python `d.get(k)` / `d[k]`. -/
def alookup {α : Type} : List (String × α) → String → Option α
  | [], _ => none
  | (k', v) :: rest, k => if k' = k then some v else alookup rest k

/-- Assignment `d[k] = v` on an insertion-ordered Python dict: if `k` is
present its value is replaced at its existing position, otherwise the
binding is appended at the end. -/
def aset {α : Type} : List (String × α) → String → α → List (String × α)
  | [], k, v => [(k, v)]
  | (k', v') :: rest, k, v =>
      if k' = k then (k, v) :: rest else (k', v') :: aset rest k v

/-- One intervention entry `{"timestamp": ..., "prompt": ...}` appended by
`on_new_task.py` and read back by `post_compact.py`. -/
structure Intervention where
  timestamp : String
  prompt : String
deriving DecidableEq, Repr

/-- The TaskContext record `.claude/task-contexts/{session_id}.json`.
Each field is an `Option` because every script reads the record with
`dict.get` defaults and several writers omit keys entirely:
`reset_context` omits `task_completed` and `file_access`, the new-task
branch of `on_new_task.py` omits `file_access`, and `on_task_end.py` can
create a record holding only `task_completed`.  For `initial_prompt` and
`initial_timestamp`, `none` covers both "key absent" and "key null",
which no reader distinguishes. -/
structure TaskContext where
  initial_prompt : Option String
  initial_timestamp : Option String
  interventions : Option (List Intervention)
  task_completed : Option Bool
  file_access : Option (List (String × List String))
deriving DecidableEq, Repr

/-- The ReflectionState record `.claude/metacognition/{session_id}.json`. -/
structure ReflectionState where
  task_started : Bool
  compaction_count : Int
deriving DecidableEq, Repr

/-- Default reflection state, the literal
`{"task_started": False, "compaction_count": 0}` of `load_state`. -/
def defaultReflectionState : ReflectionState :=
  { task_started := false, compaction_count := 0 }

/-- Outcome of trying to read a record file: the file does not exist, it
exists but `read_text` raises `OSError`, or it yields string content. -/
inductive FileRead where
  | missing
  | unreadable
  | content (s : String)
deriving DecidableEq, Repr

/-- Model of `lib/context.py` `load_state`: a missing file, an `OSError`,
or content the parse oracle rejects (`json.JSONDecodeError`) all fall
through to the default dict.  The oracle `parse` models `json.loads`
composed with reading the decoded value as a `ReflectionState`. -/
def load_state (parse : String → Option ReflectionState) (f : FileRead) :
    ReflectionState :=
  match f with
  | .missing => defaultReflectionState
  | .unreadable => defaultReflectionState
  | .content s => (parse s).getD defaultReflectionState

/-- Model of `lib/context.py` `load_context`: as `load_state`, but the
default for an absent or bad record is `None`. -/
def load_context (parse : String → Option TaskContext) (f : FileRead) :
    Option TaskContext :=
  match f with
  | .missing => none
  | .unreadable => none
  | .content s => parse s

/-- Failure cases of a record read: the file is missing, unreadable, or
its content does not parse. -/
def badRecord {α : Type} (parse : String → Option α) (f : FileRead) : Prop :=
  f = .missing ∨ f = .unreadable ∨ ∃ s, f = .content s ∧ parse s = none

/-- The fresh task context produced by the new-task branch of
`on_new_task.py` `main` (note: no `file_access` key). -/
def newTaskContext (prompt timestamp : String) : TaskContext :=
  { initial_prompt := some prompt
    initial_timestamp := some timestamp
    interventions := some []
    task_completed := some false
    file_access := none }

/-- The fallback dict `on_new_task.py` substitutes for an absent context
(all four keys present, `task_completed` defaulting to `True`). -/
def absentContextDefault : TaskContext :=
  { initial_prompt := none
    initial_timestamp := none
    interventions := some []
    task_completed := some true
    file_access := none }

/-- Task-context part of `on_new_task.py` `main` (lines 97-121): decide
new task versus intervention and return the context that gets persisted.
Result `none` models the `KeyError` that `context["interventions"]`
raises when a stored, uncompleted context lacks the key. -/
def on_prompt (context : Option TaskContext) (prompt timestamp : String) :
    Option TaskContext :=
  let ctx := context.getD absentContextDefault
  if ctx.task_completed.getD true then
    some (newTaskContext prompt timestamp)
  else
    match ctx.interventions with
    | some ivs =>
        some { ctx with
                 interventions :=
                   some (ivs ++ [{ timestamp := timestamp, prompt := prompt }]) }
    | none => none

/-- The empty dict `{}` substituted by `on_task_end.py` for an absent
context. -/
def emptyContext : TaskContext :=
  { initial_prompt := none
    initial_timestamp := none
    interventions := none
    task_completed := none
    file_access := none }

/-- Model of `on_task_end.py` `main` (lines 39-41): load or default to
`{}`, set `task_completed = True`, persist. -/
def on_task_end (context : Option TaskContext) : TaskContext :=
  { context.getD emptyContext with task_completed := some true }

/-- The record written by `post_compact.py` `reset_context` on a
non-compaction session start: `initial_prompt` and `initial_timestamp`
null, `interventions` empty, and no `task_completed` or `file_access`
key at all. -/
def reset_context_record : TaskContext :=
  { initial_prompt := none
    initial_timestamp := none
    interventions := some []
    task_completed := none
    file_access := none }

/-- Model of `lib/context.py` `normalize_path`.  The `Path` arithmetic
(`is_absolute`, `relative_to` and its `ValueError`, plus the enclosing
`except Exception`) is the oracle `rel`: `rel p = some r` when `p` is
absolute, lies under the working directory, and relativises to `r`;
`rel p = none` when the path is kept as given.  Both branches end with
`file_path.replace("\\", "/")`. -/
def normalize_path (rel : String → Option String) (file_path : String) :
    String :=
  normSep ((rel file_path).getD file_path)

/-- One iteration of the key-normalization loop of `on_file_access.py`
`main` (lines 72-80): rewrite the key with `replace("\\", "/")`, and on a
collision with an already-emitted key merge the two access lists through
`list(set(...))`, modelled by the oracle `setU`. -/
def normStep (setU : List String → List String)
    (acc : List (String × List String)) (pa : String × List String) :
    List (String × List String) :=
  let norm := normSep pa.1
  match alookup acc norm with
  | some cur => aset acc norm (setU (cur ++ pa.2))
  | none => aset acc norm pa.2

/-- The whole normalization pass over `context["file_access"]`
(`on_file_access.py` lines 72-80), rebuilding the dict from an empty
one. -/
def normalize_pass (setU : List String → List String)
    (fa : List (String × List String)) : List (String × List String) :=
  fa.foldl (normStep setU) []

/-- The tail of `on_file_access.py` `main` (lines 83-87): ensure the key
exists with an empty list, then append the access type if absent. -/
def add_access (file_path access_type : String)
    (fa : List (String × List String)) : List (String × List String) :=
  let fa1 := if (alookup fa file_path).isSome then fa
    else fa ++ [(file_path, [])]
  let cur := (alookup fa1 file_path).getD []
  if access_type ∈ cur then fa1 else aset fa1 file_path (cur ++ [access_type])

/-- The context update performed by `on_file_access.py` `main` (lines
53-89): normalize the incoming path, default a missing `file_access` to
the empty dict, re-normalize every existing key, and record the access. -/
def record_access (setU : List String → List String)
    (rel : String → Option String) (ctx : TaskContext)
    (file_path access_type : String) : TaskContext :=
  let p := normalize_path rel file_path
  let fa0 := ctx.file_access.getD []
  let fa1 := normalize_pass setU fa0
  let fa2 := add_access p access_type fa1
  { ctx with file_access := some fa2 }

/-- A regular file seen by the `rglob` walk of `post_compact.py`
`get_recent_files_with_mtime`: the components of its path relative to the
working directory (`relative_to(cwd).parts`) and its modification time on
the shared integer timeline. -/
structure FsFile where
  parts : List String
  mtime : Int
deriving DecidableEq, Repr

/-- The slash-joined relative path `str(f.relative_to(cwd_path)).replace("\\", "/")`. -/
def relPath (f : FsFile) : String := String.intercalate "/" f.parts

/-- Test for Python `p.startswith(".")`: the pattern is one character, so
it holds exactly when the first character is a dot. -/
def startsWithDot (p : String) : Bool :=
  match p.data with
  | [] => false
  | c :: _ => c == '.'

/-- The exclusion test of `get_recent_files_with_mtime` (line 54): any
path component that is hidden or a dependency/cache directory. -/
def isExcludedParts (parts : List String) : Bool :=
  parts.any (fun p =>
    startsWithDot p || p == "node_modules" || p == "__pycache__" ||
      p == "venv" || p == ".venv")

/-- Oracles for everything `post_compact.py` reads from the clock and the
filesystem: ISO-8601 parsing onto the integer timeline, `%H:%M`
formatting, the formatted `datetime.now()`, the list of regular files the
`rglob` walk yields, and `get_file_mtime` for a tracked path. -/
structure Env where
  parseIso : String → Option Int
  fmtHM : Int → String
  nowHM : String
  fs : List FsFile
  getMtime : String → Option String

/-- The filtered, decorated and mtime-descending-sorted file list built by
`get_recent_files_with_mtime` before the `[:limit]` cap.  CPython
`list.sort(key=..., reverse=True)` is a stable descending sort, modelled
by the stable `insertionSort` under `b.mtime ≤ a.mtime`. -/
def recent_triples (env : Env) (since_ts : Int) :
    List (String × Int × String) :=
  List.insertionSort (fun a b => b.2.1 ≤ a.2.1)
    ((env.fs.filter
        (fun f => !isExcludedParts f.parts && since_ts ≤ f.mtime)).map
      (fun f => (relPath f, f.mtime, env.fmtHM f.mtime)))

/-- Model of `post_compact.py` `get_recent_files_with_mtime` (lines
43-68): an unparseable `since_timestamp` raises inside the `try` and the
`except Exception` returns `[]`; otherwise filter, sort descending by
mtime, cap at `limit`, and drop the raw mtime from each triple. -/
def get_recent_files_with_mtime (env : Env) (since_timestamp : String)
    (limit : Nat) : List (String × String) :=
  match env.parseIso since_timestamp with
  | none => []
  | some ts => ((recent_triples env ts).take limit).map (fun x => (x.1, x.2.2))

/-- The fixed header lines of `build_compaction_message`. -/
def headerLines : List String :=
  ["⚠️ CONTEXT COMPACTED", "",
   "Le contexte a été compressé. Tu as reçu un résumé, mais il capture le QUOI, rarement le POURQUOI.",
   ""]

/-- Section 1 of the report (timestamps, `post_compact.py` lines 142-151):
rendered only when `initial_timestamp` is truthy and parses; a
`ValueError` from `fromisoformat` is swallowed and the section dropped. -/
def ts_lines (env : Env) (ctx : TaskContext) : List String :=
  if truthy ctx.initial_timestamp then
    match env.parseIso (ctx.initial_timestamp.getD "") with
    | some t =>
        ["📅 Tâche démarrée à : " ++ env.fmtHM t,
         "📅 Compaction à : " ++ env.nowHM, ""]
    | none => []
  else []

/-- Section 2 of the report (initial prompt, lines 154-157). -/
def prompt_lines (ctx : TaskContext) : List String :=
  if truthy ctx.initial_prompt then
    ["📋 DEMANDE INITIALE :", ctx.initial_prompt.getD "", ""]
  else []

/-- Section 3 of the report (last five interventions, lines 160-165);
`interventions[-5:]` keeps the last five entries. -/
def interventions_lines (ctx : TaskContext) : List String :=
  let ivs := ctx.interventions.getD []
  if ivs.isEmpty then []
  else
    "💬 INTERVENTIONS UTILISATEUR :" ::
      (ivs.drop (ivs.length - 5)).map (fun iv => "  - " ++ iv.prompt) ++ [""]

/-- The priority map `{"read": 0, "update": 1, "write": 2}.get(x, 3)` of
line 174. -/
def accessPriority (s : String) : Nat :=
  if s == "read" then 0
  else if s == "update" then 1
  else if s == "write" then 2
  else 3

/-- The rendered access-kind set: stable ascending sort by priority, then
joined with `+` (line 174). -/
def access_str (accesses : List String) : String :=
  String.intercalate "+"
    (List.insertionSort (fun a b => accessPriority a ≤ accessPriority b)
      accesses)

/-- The mtime suffix of line 175: `f" ({mtime})" if mtime else ""`. -/
def timeSuffix (o : Option String) : String :=
  match o with
  | some m => if m == "" then "" else " (" ++ m ++ ")"
  | none => ""

/-- Section 4 of the report (files accessed, lines 168-177).  The gate is
the truthiness of `initial_timestamp` alone (`if initial_ts:`), not its
parseability. -/
def files_lines (env : Env) (ctx : TaskContext) : List String :=
  if truthy ctx.initial_timestamp then
    let fa := ctx.file_access.getD []
    if fa.isEmpty then []
    else
      "📁 FICHIERS ACCÉDÉS PENDANT CETTE TÂCHE :" ::
        fa.map (fun pa =>
          "  - " ++ pa.1 ++ " [" ++ access_str pa.2 ++ "]" ++
            timeSuffix (env.getMtime pa.1)) ++ [""]
  else []

/-- The ledger keys, `set(file_access.keys())` of line 180. -/
def tracked_keys (ctx : TaskContext) : List String :=
  keys (ctx.file_access.getD [])

/-- The other-files list of lines 181-182: the capped recent-file scan
with the ledger keys filtered out afterwards. -/
def other_files (env : Env) (ctx : TaskContext) : List (String × String) :=
  (get_recent_files_with_mtime env (ctx.initial_timestamp.getD "") 15).filter
    (fun ft => decide (ft.1 ∉ tracked_keys ctx))

/-- Section 5 of the report (other modified files, lines 179-188), inside
the same `if initial_ts:` gate as section 4. -/
def other_lines (env : Env) (ctx : TaskContext) : List String :=
  if truthy ctx.initial_timestamp then
    let ofs := other_files env ctx
    if ofs.isEmpty then []
    else
      "📁 AUTRES FICHIERS MODIFIÉS DEPUIS LE DÉBUT DE LA TÂCHE :" ::
        "   (subagents, autres instances, outils externes)" ::
          ofs.map (fun ft => "  - " ++ ft.1 ++ " (" ++ ft.2 ++ ")") ++ [""]
  else []

/-- The no-context fallback lines 190-191. -/
def noContextLines : List String :=
  ["(Pas de contexte de tâche capturé)", ""]

/-- The fixed metacognitive reminder of `post_compact.py` (lines 97-109),
appended to every compaction report. -/
def POST_COMPACTION_METACOG : String :=
  "Pendant ton travail, tu DOIS régulièrement te demander :\n- Comprends-tu encore le POURQUOI de ce que tu fais ?\n- Es-tu en train de simplifier ou couper des coins ?\n- Risques-tu de casser quelque chose qui existait avant ?\n\nSi une réponse t\x27inquiète → ARRÊTE et fais un point avec l\x27utilisateur :\n- Qu\x27est-ce qui a été complètement fait ?\n- Que reste-t-il à faire ?\n- Qu\x27est-ce que tu n\x27es pas sûr de comprendre ?\n\nRappel : Après compaction, tu as tendance à devenir hyper-focalisé sur \"la tâche\" en oubliant le contexte global. Résiste à cette tendance."

/-- The line list assembled by `build_compaction_message` (lines 127-196);
the Python code appends each block conditionally to one `lines` list,
which is the concatenation of the block functions above. -/
def build_compaction_lines (env : Env) (context : Option TaskContext) :
    List String :=
  headerLines ++
    (match context with
     | some ctx =>
         ts_lines env ctx ++ prompt_lines ctx ++ interventions_lines ctx ++
           files_lines env ctx ++ other_lines env ctx
     | none => noContextLines) ++
    [POST_COMPACTION_METACOG]

/-- The emitted report, `"\n".join(lines)`. -/
def build_compaction_message (env : Env) (context : Option TaskContext) :
    String :=
  String.intercalate "\n" (build_compaction_lines env context)

/-- The retention cap `MAX_CONTEXT_FILES` of `on_new_task.py`. -/
def MAX_CONTEXT_FILES : Nat := 10

/-- Model of `on_new_task.py` `cleanup_old_contexts` (lines 66-79) on a
directory listed as (name, mtime) pairs in the arbitrary order `glob`
yields: if more than `MAX_CONTEXT_FILES` records exist, sort ascending by
mtime (stable) and unlink the prefix `files[:-MAX_CONTEXT_FILES]`; the
returned list is the set of surviving records. -/
def cleanup_old_contexts (files : List (String × Int)) :
    List (String × Int) :=
  if files.length ≤ MAX_CONTEXT_FILES then files
  else
    let sorted := List.insertionSort (fun a b => a.2 ≤ b.2) files
    sorted.drop (sorted.length - MAX_CONTEXT_FILES)

/-- Written from the words of claim C3, for comparison with the code:
"exactly the files (excluding hidden entries and common dependency/cache
directories) whose modification time is at or after the task start and
whose path is not a key of the file-access ledger, sorted by modification
time descending and capped at 15 entries" — i.e. the ledger filter
applied before the cap. -/
def claim_other_files (env : Env) (since_ts : Int) (tracked : List String) :
    List (String × String) :=
  let qual := env.fs.filter
    (fun f => !isExcludedParts f.parts && since_ts ≤ f.mtime &&
      decide (relPath f ∉ tracked))
  let sorted := List.insertionSort (fun a b => b.2.1 ≤ a.2.1)
    (qual.map (fun f => (relPath f, f.mtime, env.fmtHM f.mtime)))
  (sorted.take 15).map (fun x => (x.1, x.2.2))

/-- Values of an association list, as Python `dict.values()`. -/
def values {α : Type} (m : List (String × α)) : List α := m.map Prod.snd

/-- Invariant of a ledger dict whose keys are already separator-normalized
and, being dict keys, pairwise distinct. -/
def NormOK {α : Type} (m : List (String × α)) : Prop :=
  (∀ k ∈ keys m, normSep k = k) ∧ (keys m).Nodup

/-- Environment whose parse oracle rejects every timestamp, modelling a
stored `initial_timestamp` that is not ISO-8601. -/
def envReject : Env :=
  { parseIso := fun _ => none
    fmtHM := fun _ => ""
    nowHM := "12:00"
    fs := []
    getMtime := fun _ => none }

/-- Context with a present but unparseable `initial_timestamp` and a
nonempty ledger. -/
def ctxBadTs : TaskContext :=
  { initial_prompt := some "build X"
    initial_timestamp := some "garbage"
    interventions := some []
    task_completed := some false
    file_access := some [("a.txt", ["read"])] }

/-- Context with an absent `initial_timestamp` and a nonempty ledger,
prompt and intervention list. -/
def ctxNoTs : TaskContext :=
  { initial_prompt := some "build X"
    initial_timestamp := none
    interventions := some [{ timestamp := "t", prompt := "tweak it" }]
    task_completed := some false
    file_access := some [("a.txt", ["read"])] }

/-- Sixteen visible files, newest first, all modified at or after time 0. -/
def fsSixteen : List FsFile :=
  [{ parts := ["f00"], mtime := 115 }, { parts := ["f01"], mtime := 114 },
   { parts := ["f02"], mtime := 113 }, { parts := ["f03"], mtime := 112 },
   { parts := ["f04"], mtime := 111 }, { parts := ["f05"], mtime := 110 },
   { parts := ["f06"], mtime := 109 }, { parts := ["f07"], mtime := 108 },
   { parts := ["f08"], mtime := 107 }, { parts := ["f09"], mtime := 106 },
   { parts := ["f10"], mtime := 105 }, { parts := ["f11"], mtime := 104 },
   { parts := ["f12"], mtime := 103 }, { parts := ["f13"], mtime := 102 },
   { parts := ["f14"], mtime := 101 }, { parts := ["f15"], mtime := 100 }]

/-- Environment for the recent-file scan: `"T0"` parses to time 0, the
walk sees `fsSixteen`. -/
def envScan : Env :=
  { parseIso := fun s => if s = "T0" then some 0 else none
    fmtHM := fun t => toString t
    nowHM := "12:00"
    fs := fsSixteen
    getMtime := fun _ => none }

/-- Context whose task started at `"T0"` and whose ledger tracks the most
recently modified file `f00`. -/
def ctxScan : TaskContext :=
  { initial_prompt := some "build X"
    initial_timestamp := some "T0"
    interventions := none
    task_completed := none
    file_access := some [("f00", ["read"])] }

/-- Twelve context records with distinct modification times, listed in
directory order. -/
def filesTwelve : List (String × Int) :=
  [("s01", 1), ("s02", 2), ("s03", 3), ("s04", 4), ("s05", 5), ("s06", 6),
   ("s07", 7), ("s08", 8), ("s09", 9), ("s10", 10), ("s11", 11), ("s12", 12)]

/-- Claim C4: for a fresh session with no stored context, the first
`on_prompt` starts a new task (initial_prompt set to the prompt,
interventions empty, task_completed false); a second `on_prompt` before
`on_task_end` appends the (timestamp, prompt) pair to `interventions` and
leaves `initial_prompt` unchanged; and `on_task_end` followed by another
`on_prompt` starts a new task whose `initial_prompt` is the new prompt and
whose `interventions` list is empty. -/
theorem claim_C4_lifecycle (p1 t1 p2 t2 p3 t3 : String) :
    on_prompt none p1 t1 = some (newTaskContext p1 t1) ∧
    on_prompt (some (newTaskContext p1 t1)) p2 t2 =
      some { newTaskContext p1 t1 with
               interventions := some [{ timestamp := t2, prompt := p2 }] } ∧
    (newTaskContext p1 t1).initial_prompt = some p1 ∧
    (newTaskContext p1 t1).interventions = some [] ∧
    (newTaskContext p1 t1).task_completed = some false ∧
    on_prompt
      (some (on_task_end
        (some { newTaskContext p1 t1 with
                  interventions := some [{ timestamp := t2, prompt := p2 }] })))
      p3 t3 = some (newTaskContext p3 t3) :=
  ⟨rfl, rfl, rfl, rfl, rfl, rfl⟩

/-- Claim C7: `on_task_end` sets `task_completed` to true unconditionally
and leaves `initial_prompt`, `initial_timestamp`, `interventions` and
`file_access` unchanged in the persisted record. -/
theorem claim_C7_task_end_frame (c : TaskContext) :
    (on_task_end (some c)).task_completed = some true ∧
    (on_task_end (some c)).initial_prompt = c.initial_prompt ∧
    (on_task_end (some c)).initial_timestamp = c.initial_timestamp ∧
    (on_task_end (some c)).interventions = c.interventions ∧
    (on_task_end (some c)).file_access = c.file_access :=
  ⟨rfl, rfl, rfl, rfl, rfl⟩

/-- Claim C9: the record written by a non-compaction session start omits
`task_completed` entirely; `on_prompt` reads it with default true, so the
next prompt after a fresh session start begins a new task (not an
intervention). -/
theorem claim_C9_session_boundary (p t : String) :
    reset_context_record.task_completed = none ∧
    reset_context_record.task_completed.getD true = true ∧
    on_prompt (some reset_context_record) p t = some (newTaskContext p t) :=
  ⟨rfl, rfl, rfl⟩

/-- Claim C2: for either record kind, whenever the record file is missing,
unreadable, or holds content the parser rejects, `load` returns the
kind's default value (the `task_started = false`, `compaction_count = 0`
state; the absent-record `None` context).  `load_state` and
`load_context` are total Lean functions, so no exception can escape. -/
theorem claim_C2_load_total_default
    (parseS : String → Option ReflectionState)
    (parseC : String → Option TaskContext) (f g : FileRead)
    (hf : badRecord parseS f) (hg : badRecord parseC g) :
    load_state parseS f = defaultReflectionState ∧
    load_context parseC g = none := by
  constructor
  · rcases hf with h | h | ⟨s, h, hp⟩
    · subst h; rfl
    · subst h; rfl
    · subst h; simp [load_state, hp]
  · rcases hg with h | h | ⟨s, h, hp⟩
    · subst h; rfl
    · subst h; rfl
    · subst h; simp [load_context, hp]

/-- Concrete instance of claim C2: a missing state file and a corrupt
context file both fall back to the defaults. -/
theorem claim_C2_load_total_default_witness :
    badRecord (fun _ => (none : Option ReflectionState)) FileRead.missing ∧
    badRecord (fun _ => (none : Option TaskContext))
      (FileRead.content "not json") ∧
    load_state (fun _ => none) FileRead.missing = defaultReflectionState ∧
    load_context (fun _ => none) (FileRead.content "not json") = none := by
  have h1 : badRecord (fun _ => (none : Option ReflectionState))
      FileRead.missing := Or.inl rfl
  have h2 : badRecord (fun _ => (none : Option TaskContext))
      (FileRead.content "not json") :=
    Or.inr (Or.inr ⟨"not json", rfl, rfl⟩)
  obtain ⟨a, b⟩ := claim_C2_load_total_default
    (fun _ => none) (fun _ => none) FileRead.missing
    (FileRead.content "not json") h1 h2
  exact ⟨h1, h2, a, b⟩

/-- Claim C1 as amended: if `initial_timestamp` is absent or empty the
timestamps, files-accessed and other-files sections are all skipped; if it
is present but unparseable the timestamps and other-files sections are
skipped, while the files-accessed section still renders when the ledger is
nonempty (its gate tests only truthiness of the timestamp); the
initial-prompt and interventions sections render whenever their data is
present, in every case. -/
theorem claim_C1_amended (env : Env) (ctx : TaskContext)
    (h : truthy ctx.initial_timestamp = false ∨
      env.parseIso (ctx.initial_timestamp.getD "") = none) :
    ts_lines env ctx = [] ∧
    other_lines env ctx = [] ∧
    (truthy ctx.initial_timestamp = false → files_lines env ctx = []) ∧
    (truthy ctx.initial_prompt = true → prompt_lines ctx ≠ []) ∧
    ((ctx.interventions.getD []).isEmpty = false →
      interventions_lines ctx ≠ []) := by
  have hts : ts_lines env ctx = [] := by
    unfold ts_lines
    rcases h with h | h
    · simp [h]
    · cases htr : truthy ctx.initial_timestamp
      · simp
      · simp [h]
  have hof : other_lines env ctx = [] := by
    unfold other_lines
    rcases h with h | h
    · simp [h]
    · cases htr : truthy ctx.initial_timestamp
      · simp
      · simp only [if_pos rfl]
        have : other_files env ctx = [] := by
          unfold other_files get_recent_files_with_mtime
          rw [h]
          rfl
        simp [this]
  refine ⟨hts, hof, ?_, ?_, ?_⟩
  · intro hfalse
    unfold files_lines
    simp [hfalse]
  · intro hp
    unfold prompt_lines
    simp [hp]
  · intro hi
    unfold interventions_lines
    simp [hi]

/-- Claim C1 fails as stated: with a present but unparseable
`initial_timestamp` and a nonempty ledger, the timestamps section is
skipped yet the files-accessed section is emitted, because its gate in
`build_compaction_message` tests only the truthiness of the stored
timestamp string, not its parseability. -/
theorem claim_C1_counterexample :
    envReject.parseIso "garbage" = none ∧
    ctxBadTs.initial_timestamp = some "garbage" ∧
    ts_lines envReject ctxBadTs = [] ∧
    files_lines envReject ctxBadTs =
      ["📁 FICHIERS ACCÉDÉS PENDANT CETTE TÂCHE :", "  - a.txt [read]", ""] ∧
    "📁 FICHIERS ACCÉDÉS PENDANT CETTE TÂCHE :" ∈
      build_compaction_lines envReject (some ctxBadTs) := by
  refine ⟨rfl, rfl, rfl, rfl, ?_⟩
  decide

/-- Concrete instance of the amended claim C1: with an absent
`initial_timestamp`, sections 1, 4 and 5 are all skipped while sections 2
and 3 still render. -/
theorem claim_C1_amended_witness :
    truthy ctxNoTs.initial_timestamp = false ∧
    (ts_lines envReject ctxNoTs = [] ∧
      other_lines envReject ctxNoTs = [] ∧
      (truthy ctxNoTs.initial_timestamp = false →
        files_lines envReject ctxNoTs = []) ∧
      (truthy ctxNoTs.initial_prompt = true →
        prompt_lines ctxNoTs ≠ []) ∧
      ((ctxNoTs.interventions.getD []).isEmpty = false →
        interventions_lines ctxNoTs ≠ [])) :=
  ⟨rfl, claim_C1_amended envReject ctxNoTs (Or.inl rfl)⟩

/-- Claim C8: sweeping a directory of context records is the identity when
at most `MAX_CONTEXT_FILES` (10) records exist; otherwise exactly 10
records remain, and they are the most recently modified ones — every
deleted record's modification time is at most that of every survivor. -/
theorem claim_C8_retention (files : List (String × Int)) :
    (files.length ≤ MAX_CONTEXT_FILES → cleanup_old_contexts files = files) ∧
    (MAX_CONTEXT_FILES < files.length →
      (cleanup_old_contexts files).length = MAX_CONTEXT_FILES ∧
      ∃ deleted : List (String × Int),
        (deleted ++ cleanup_old_contexts files).Perm files ∧
        ∀ d ∈ deleted, ∀ s ∈ cleanup_old_contexts files, d.2 ≤ s.2) := by
  constructor
  · intro h
    unfold cleanup_old_contexts
    simp [h]
  · intro h
    have hnle : ¬ files.length ≤ MAX_CONTEXT_FILES := by omega
    have hres : cleanup_old_contexts files =
        (List.insertionSort (fun a b => a.2 ≤ b.2) files).drop
          ((List.insertionSort (fun a b => a.2 ≤ b.2) files).length -
            MAX_CONTEXT_FILES) := by
      unfold cleanup_old_contexts
      simp [hnle]
    have hlen : (List.insertionSort (fun a b => a.2 ≤ b.2) files).length =
        files.length := List.length_insertionSort _ _
    have hperm : (List.insertionSort (fun a b => a.2 ≤ b.2) files).Perm files :=
      List.perm_insertionSort _ _
    refine ⟨?_, ?_⟩
    · rw [hres, List.length_drop, hlen]
      omega
    · refine ⟨(List.insertionSort (fun a b => a.2 ≤ b.2) files).take
        ((List.insertionSort (fun a b => a.2 ≤ b.2) files).length -
          MAX_CONTEXT_FILES), ?_, ?_⟩
      · rw [hres, List.take_append_drop]
        exact hperm
      · haveI : IsTotal (String × Int) (fun a b => a.2 ≤ b.2) :=
          ⟨fun a b => le_total a.2 b.2⟩
        haveI : IsTrans (String × Int) (fun a b => a.2 ≤ b.2) :=
          ⟨fun _ _ _ hab hbc => le_trans hab hbc⟩
        have hsorted : (List.insertionSort (fun a b => a.2 ≤ b.2)
            files).Pairwise (fun a b => a.2 ≤ b.2) :=
          List.sorted_insertionSort _ files
        rw [hres]
        intro d hd s hs
        have := (List.take_append_drop
          ((List.insertionSort (fun a b => a.2 ≤ b.2) files).length -
            MAX_CONTEXT_FILES)
          (List.insertionSort (fun a b => a.2 ≤ b.2) files)).symm
        rw [this] at hsorted
        exact (List.pairwise_append.mp hsorted).2.2 d hd s hs

/-- Concrete instance of claim C8: sweeping twelve records with distinct
modification times leaves exactly the ten most recently modified, here
verified both through the theorem and by direct evaluation. -/
theorem claim_C8_retention_witness :
    MAX_CONTEXT_FILES < filesTwelve.length ∧
    (cleanup_old_contexts filesTwelve).length = MAX_CONTEXT_FILES ∧
    (∃ deleted : List (String × Int),
      (deleted ++ cleanup_old_contexts filesTwelve).Perm filesTwelve ∧
      ∀ d ∈ deleted, ∀ s ∈ cleanup_old_contexts filesTwelve, d.2 ≤ s.2) ∧
    cleanup_old_contexts filesTwelve =
      [("s03", 3), ("s04", 4), ("s05", 5), ("s06", 6), ("s07", 7),
       ("s08", 8), ("s09", 9), ("s10", 10), ("s11", 11), ("s12", 12)] := by
  have h := (claim_C8_retention filesTwelve).2 (by decide)
  exact ⟨by decide, h.1, h.2, by decide⟩

/-- Claim C3 as amended: for a parseable task-start timestamp, the
other-files section lists exactly the non-ledger entries among the first
15 of the mtime-descending-sorted eligible files (hidden entries and
dependency/cache directories excluded, modification time at or after task
start): the cap at 15 is applied before the ledger keys are filtered out.
Consequently the section holds at most 15 entries, every listed file is
eligible, recently modified and untracked, and the underlying scan is
sorted by modification time descending. -/
theorem claim_C3_amended (env : Env) (ctx : TaskContext) (ts : Int)
    (h : env.parseIso (ctx.initial_timestamp.getD "") = some ts) :
    other_files env ctx =
      (((recent_triples env ts).take 15).filter
        (fun tr => decide (tr.1 ∉ tracked_keys ctx))).map
        (fun x => (x.1, x.2.2)) ∧
    (other_files env ctx).length ≤ 15 ∧
    (recent_triples env ts).Pairwise (fun a b => b.2.1 ≤ a.2.1) ∧
    ∀ pr ∈ other_files env ctx,
      pr.1 ∉ tracked_keys ctx ∧
      ∃ f ∈ env.fs, relPath f = pr.1 ∧ isExcludedParts f.parts = false ∧
        ts ≤ f.mtime ∧ pr.2 = env.fmtHM f.mtime := by
  have hof : other_files env ctx =
      (((recent_triples env ts).take 15).map (fun x => (x.1, x.2.2))).filter
        (fun ft => decide (ft.1 ∉ tracked_keys ctx)) := by
    unfold other_files get_recent_files_with_mtime
    rw [h]
  have hcomm : other_files env ctx =
      (((recent_triples env ts).take 15).filter
        (fun tr => decide (tr.1 ∉ tracked_keys ctx))).map
        (fun x => (x.1, x.2.2)) := by
    rw [hof, List.filter_map]
    rfl
  refine ⟨hcomm, ?_, ?_, ?_⟩
  · rw [hof]
    calc ((((recent_triples env ts).take 15).map
          (fun x => (x.1, x.2.2))).filter
            (fun ft => decide (ft.1 ∉ tracked_keys ctx))).length
        ≤ (((recent_triples env ts).take 15).map
            (fun x => (x.1, x.2.2))).length := List.length_filter_le _ _
      _ = ((recent_triples env ts).take 15).length := List.length_map _ _
      _ ≤ 15 := by rw [List.length_take]; exact Nat.min_le_left _ _
  · haveI : IsTotal (String × Int × String)
        (fun a b => b.2.1 ≤ a.2.1) := ⟨fun a b => le_total b.2.1 a.2.1⟩
    haveI : IsTrans (String × Int × String)
        (fun a b => b.2.1 ≤ a.2.1) :=
      ⟨fun _ _ _ hab hbc => le_trans hbc hab⟩
    exact List.sorted_insertionSort _ _
  · intro pr hpr
    rw [hof] at hpr
    obtain ⟨hmem, hdec⟩ := List.mem_filter.mp hpr
    refine ⟨of_decide_eq_true hdec, ?_⟩
    obtain ⟨tr, htr, rfl⟩ := List.mem_map.mp hmem
    have htr' : tr ∈ recent_triples env ts := List.mem_of_mem_take htr
    unfold recent_triples at htr'
    rw [List.mem_insertionSort] at htr'
    obtain ⟨f0, hf0, rfl⟩ := List.mem_map.mp htr'
    obtain ⟨hfs, hok⟩ := List.mem_filter.mp hf0
    rw [Bool.and_eq_true] at hok
    obtain ⟨hexcl, hts⟩ := hok
    have hexcl' : isExcludedParts f0.parts = false := by simpa using hexcl
    exact ⟨f0, hfs, rfl, hexcl', of_decide_eq_true hts, rfl⟩

/-- Claim C3 fails as stated: `get_recent_files_with_mtime` caps the scan
at the 15 most recent files before the ledger keys are removed.  With 16
eligible files and the most recent one tracked in the ledger, the
qualifying 16th file is silently dropped even though the emitted section
holds only 14 entries; the filter-then-cap list demanded by the claim
contains it. -/
theorem claim_C3_counterexample :
    envScan.parseIso (ctxScan.initial_timestamp.getD "") = some 0 ∧
    "f15" ∈ (claim_other_files envScan 0 (tracked_keys ctxScan)).map
      Prod.fst ∧
    "f15" ∉ (other_files envScan ctxScan).map Prod.fst ∧
    other_files envScan ctxScan ≠
      claim_other_files envScan 0 (tracked_keys ctxScan) := by
  refine ⟨rfl, ?_, ?_, ?_⟩ <;> decide

/-- Concrete instance of the amended claim C3: on the sixteen-file scan
the emitted section has at most 15 entries and every entry is untracked. -/
theorem claim_C3_amended_witness :
    envScan.parseIso (ctxScan.initial_timestamp.getD "") = some 0 ∧
    (other_files envScan ctxScan).length ≤ 15 ∧
    ∀ pr ∈ other_files envScan ctxScan, pr.1 ∉ tracked_keys ctxScan :=
  ⟨rfl, (claim_C3_amended envScan ctxScan 0 rfl).2.1,
    fun pr h => ((claim_C3_amended envScan ctxScan 0 rfl).2.2.2 pr h).1⟩

/-- Rewriting separators is idempotent on characters: the replacement
character `/` is not itself rewritten. -/
theorem sepFix_idem (c : Char) : sepFix (sepFix c) = sepFix c := by
  by_cases h : c = '\\' <;> simp [sepFix, h]

/-- Rewriting separators is idempotent on strings: the output contains no
backslash. -/
theorem normSep_idem (s : String) : normSep (normSep s) = normSep s := by
  cases s with
  | mk data =>
    simp only [normSep, List.map_map]
    congr 1
    induction data with
    | nil => rfl
    | cons c cs ih => simp [Function.comp, sepFix_idem c]; simpa using ih

/-- Keys distribute over concatenation of association lists. -/
theorem keys_append {α : Type} (m₁ m₂ : List (String × α)) :
    keys (m₁ ++ m₂) = keys m₁ ++ keys m₂ :=
  List.map_append _ _ _

/-- A lookup misses exactly when the key is not among the keys. -/
theorem alookup_eq_none_iff {α : Type} (m : List (String × α)) (k : String) :
    alookup m k = none ↔ k ∉ keys m := by
  induction m with
  | nil => simp [alookup, keys]
  | cons p rest ih =>
    obtain ⟨k', v⟩ := p
    by_cases h : k' = k
    · subst h; simp [alookup, keys]
    · simp only [alookup, keys, List.map_cons, List.mem_cons, if_neg h]
      rw [ih]
      constructor
      · intro hk hor
        rcases hor with hor | hor
        · exact h hor.symm
        · exact hk hor
      · intro hk hm
        exact hk (Or.inr hm)

/-- A successful lookup puts the key among the keys. -/
theorem mem_keys_of_alookup {α : Type} {m : List (String × α)} {k : String}
    {v : α} (h : alookup m k = some v) : k ∈ keys m := by
  by_contra hk
  rw [(alookup_eq_none_iff m k).mpr hk] at h
  cases h

/-- Lookup of an absent key misses. -/
theorem alookup_of_not_mem {α : Type} {m : List (String × α)} {k : String}
    (h : k ∉ keys m) : alookup m k = none :=
  (alookup_eq_none_iff m k).mpr h

/-- Assigning an absent key appends the binding at the end, as a Python
dict does. -/
theorem aset_of_not_mem {α : Type} {m : List (String × α)} {k : String}
    (v : α) (h : k ∉ keys m) : aset m k v = m ++ [(k, v)] := by
  induction m with
  | nil => rfl
  | cons p rest ih =>
    obtain ⟨k', v'⟩ := p
    simp only [keys, List.map_cons, List.mem_cons] at h
    push_neg at h
    obtain ⟨h1, h2⟩ := h
    have hne : ¬ k' = k := fun e => h1 (Eq.symm e)
    simp only [aset, if_neg hne, List.cons_append]
    rw [ih (by simpa [keys] using h2)]

/-- Looking up the key just assigned yields the assigned value. -/
theorem alookup_aset_self {α : Type} (m : List (String × α)) (k : String)
    (v : α) : alookup (aset m k v) k = some v := by
  induction m with
  | nil => simp [aset, alookup]
  | cons p rest ih =>
    obtain ⟨k', v'⟩ := p
    by_cases h : k' = k
    · simp [aset, h, alookup]
    · simp [aset, h, alookup, ih]

/-- Assigning a present key leaves the key list unchanged. -/
theorem keys_aset_of_mem {α : Type} {m : List (String × α)} {k : String}
    (v : α) (h : k ∈ keys m) : keys (aset m k v) = keys m := by
  induction m with
  | nil => simp [keys] at h
  | cons p rest ih =>
    obtain ⟨k', v'⟩ := p
    by_cases hk : k' = k
    · subst hk; simp [aset, keys]
    · have h' : k ∈ keys rest := by
        simp only [keys, List.map_cons, List.mem_cons] at h
        rcases h with h | h
        · exact absurd h.symm hk
        · exact h
      have hrw := ih h'
      simp only [keys] at hrw
      simp [aset, hk, keys, hrw]

/-- One normalization step preserves the ledger invariant: keys stay
separator-normalized and pairwise distinct. -/
theorem normStep_normOK {setU : List String → List String}
    {acc : List (String × List String)} {pa : String × List String}
    (h : NormOK acc) : NormOK (normStep setU acc pa) := by
  obtain ⟨hfix, hnd⟩ := h
  rcases heq : alookup acc (normSep pa.1) with _ | cur
  · have hnm : normSep pa.1 ∉ keys acc := (alookup_eq_none_iff _ _).mp heq
    have hred : normStep setU acc pa = aset acc (normSep pa.1) pa.2 := by
      simp only [normStep, heq]
    rw [hred, aset_of_not_mem _ hnm]
    constructor
    · intro k hk
      rw [keys_append] at hk
      rcases List.mem_append.mp hk with hk | hk
      · exact hfix k hk
      · simp only [keys, List.map_cons, List.map_nil, List.mem_singleton]
          at hk
        subst hk
        exact normSep_idem _
    · rw [keys_append]
      simp only [keys, List.map_cons, List.map_nil]
      refine List.Nodup.append hnd (List.nodup_singleton _) ?_
      intro a ha hb
      simp only [List.mem_singleton] at hb
      subst hb
      exact hnm ha
  · have hm : normSep pa.1 ∈ keys acc := mem_keys_of_alookup heq
    have hred : normStep setU acc pa =
        aset acc (normSep pa.1) (setU (cur ++ pa.2)) := by
      simp only [normStep, heq]
    have hkeys := keys_aset_of_mem (setU (cur ++ pa.2)) hm
    rw [hred]
    exact ⟨by rw [hkeys]; exact hfix, by rw [hkeys]; exact hnd⟩

/-- Folding normalization steps preserves the ledger invariant. -/
theorem foldl_normStep_normOK (setU : List String → List String)
    (m : List (String × List String)) :
    ∀ acc, NormOK acc → NormOK (m.foldl (normStep setU) acc) := by
  induction m with
  | nil => intro acc h; exact h
  | cons pa rest ih => intro acc h; exact ih _ (normStep_normOK h)

/-- The normalization pass establishes the ledger invariant from any
starting dict. -/
theorem normalize_pass_normOK (setU : List String → List String)
    (m : List (String × List String)) : NormOK (normalize_pass setU m) :=
  foldl_normStep_normOK setU m [] ⟨by simp [keys], by simp [keys]⟩

/-- On a dict already satisfying the invariant and disjoint from the
accumulator, the normalization fold only replays the entries. -/
theorem foldl_normStep_of_fixed (setU : List String → List String) :
    ∀ (m acc : List (String × List String)),
      (∀ k ∈ keys m, normSep k = k) → (keys m).Nodup →
      (∀ k ∈ keys m, k ∉ keys acc) →
      m.foldl (normStep setU) acc = acc ++ m := by
  intro m
  induction m with
  | nil => intro acc _ _ _; simp
  | cons pa rest ih =>
    intro acc hfix hnd hdisj
    have hpafix : normSep pa.1 = pa.1 := hfix pa.1 (by simp [keys])
    have hnotacc : pa.1 ∉ keys acc := hdisj pa.1 (by simp [keys])
    have hnd' : pa.1 ∉ keys rest ∧ (keys rest).Nodup := by
      simpa [keys] using hnd
    have hstep : normStep setU acc pa = acc ++ [pa] := by
      have hanone : alookup acc (normSep pa.1) = none := by
        rw [hpafix]; exact alookup_of_not_mem hnotacc
      simp only [normStep, hanone]
      rw [hpafix, aset_of_not_mem _ hnotacc]
    show rest.foldl (normStep setU) (normStep setU acc pa) = acc ++ pa :: rest
    rw [hstep, ih (acc ++ [pa])
      (fun k hk => hfix k (by simp [keys] at hk ⊢; exact Or.inr hk))
      hnd'.2
      ?_]
    · simp
    · intro k hk
      rw [keys_append]
      simp only [keys, List.map_cons, List.map_nil]
      intro hmem
      rcases List.mem_append.mp hmem with hmem | hmem
      · exact hdisj k (by simp [keys] at hk ⊢; exact Or.inr hk) hmem
      · simp only [List.mem_singleton] at hmem
        subst hmem
        exact hnd'.1 hk

/-- A ledger already satisfying the invariant is a fixed point of the
normalization pass: every key rewrites to itself and no merge fires. -/
theorem normalize_pass_of_normOK (setU : List String → List String)
    (m : List (String × List String)) (h : NormOK m) :
    normalize_pass setU m = m := by
  obtain ⟨h1, h2⟩ := h
  unfold normalize_pass
  rw [foldl_normStep_of_fixed setU m [] h1 h2 (by intro k _; simp [keys])]
  simp

/-- Case analysis of `add_access`: the key is present with the access
already recorded (no change), present without it (value extended in
place), or absent (inserted with the single access). -/
theorem add_access_cases (p a : String) (fa : List (String × List String)) :
    (∃ cur, alookup fa p = some cur ∧ a ∈ cur ∧ add_access p a fa = fa) ∨
    (∃ cur, alookup fa p = some cur ∧ a ∉ cur ∧
      add_access p a fa = aset fa p (cur ++ [a])) ∨
    (alookup fa p = none ∧
      add_access p a fa = aset (fa ++ [(p, [])]) p [a]) := by
  rcases heq : alookup fa p with _ | cur
  · right; right
    refine ⟨rfl, ?_⟩
    have hnm : p ∉ keys fa := (alookup_eq_none_iff _ _).mp heq
    have hfa1 : alookup (fa ++ [(p, ([] : List String))]) p = some [] := by
      rw [← aset_of_not_mem _ hnm]
      exact alookup_aset_self _ _ _
    simp only [add_access, heq, Option.isSome_none, Bool.false_eq_true,
      if_false, hfa1, Option.getD_some, List.not_mem_nil, if_false,
      List.nil_append]
  · by_cases ha : a ∈ cur
    · left
      refine ⟨cur, rfl, ha, ?_⟩
      simp only [add_access, heq, Option.isSome_some, if_true,
        Option.getD_some, ha, if_pos]
    · right; left
      refine ⟨cur, rfl, ha, ?_⟩
      simp only [add_access, heq, Option.isSome_some, if_true,
        Option.getD_some, ha, if_neg, not_false_iff]

/-- Recording an access preserves the ledger invariant when the incoming
path is already separator-normalized. -/
theorem add_access_normOK (p a : String)
    (fa : List (String × List String)) (hp : normSep p = p)
    (h : NormOK fa) : NormOK (add_access p a fa) := by
  obtain ⟨hfix, hnd⟩ := h
  rcases add_access_cases p a fa with ⟨cur, hl, _, he⟩ | ⟨cur, hl, _, he⟩ |
    ⟨hl, he⟩
  · rw [he]; exact ⟨hfix, hnd⟩
  · rw [he]
    have hm : p ∈ keys fa := mem_keys_of_alookup hl
    have hk := keys_aset_of_mem (cur ++ [a]) hm
    exact ⟨by rw [hk]; exact hfix, by rw [hk]; exact hnd⟩
  · rw [he]
    have hnm : p ∉ keys fa := (alookup_eq_none_iff _ _).mp hl
    have hm1 : p ∈ keys (fa ++ [(p, ([] : List String))]) := by
      rw [keys_append]; simp [keys]
    have hk := keys_aset_of_mem ([a]) hm1
    constructor
    · intro k hkk
      rw [hk, keys_append] at hkk
      rcases List.mem_append.mp hkk with hkk | hkk
      · exact hfix k hkk
      · simp only [keys, List.map_cons, List.map_nil, List.mem_singleton]
          at hkk
        subst hkk
        exact hp
    · rw [hk, keys_append]
      simp only [keys, List.map_cons, List.map_nil]
      refine List.Nodup.append hnd (List.nodup_singleton _) ?_
      intro x hx hx'
      simp only [List.mem_singleton] at hx'
      subst hx'
      exact hnm hx

/-- After recording an access, the key is present and carries the access
kind. -/
theorem add_access_lookup (p a : String)
    (fa : List (String × List String)) :
    ∃ cur, alookup (add_access p a fa) p = some cur ∧ a ∈ cur := by
  rcases add_access_cases p a fa with ⟨cur, hl, ha, he⟩ | ⟨cur, hl, ha, he⟩ |
    ⟨hl, he⟩
  · exact ⟨cur, by rw [he]; exact hl, ha⟩
  · exact ⟨cur ++ [a], by rw [he]; exact alookup_aset_self _ _ _, by simp⟩
  · exact ⟨[a], by rw [he]; exact alookup_aset_self _ _ _, by simp⟩

/-- Recording an access that is already present is a no-op. -/
theorem add_access_already (p a : String)
    (fa : List (String × List String)) (cur : List String)
    (hl : alookup fa p = some cur) (ha : a ∈ cur) :
    add_access p a fa = fa := by
  rcases add_access_cases p a fa with ⟨cur', hl', _, he⟩ |
    ⟨cur', hl', ha', he⟩ | ⟨hl', _⟩
  · exact he
  · rw [hl] at hl'
    injection hl' with e
    subst e
    exact absurd ha ha'
  · rw [hl] at hl'
    cases hl'

/-- The persisted ledger of `record_access`, by unfolding. -/
theorem record_access_file_access (setU : List String → List String)
    (rel : String → Option String) (ctx : TaskContext)
    (file_path access_type : String) :
    (record_access setU rel ctx file_path access_type).file_access =
      some (add_access (normalize_path rel file_path) access_type
        (normalize_pass setU (ctx.file_access.getD []))) := rfl

/-- Claim C5: recording the same (path, kind) twice produces the same
final `file_access` mapping as recording it once, for every context,
path, access kind, every resolution oracle and every behaviour of
`list(set(...))`.  After the first call the ledger keys are normalized
and distinct, so the second normalization pass is the identity and the
membership test short-circuits the append. -/
theorem claim_C5_record_access_idempotent
    (setU : List String → List String) (rel : String → Option String)
    (ctx : TaskContext) (file_path access_type : String) :
    (record_access setU rel
        (record_access setU rel ctx file_path access_type)
        file_path access_type).file_access =
      (record_access setU rel ctx file_path access_type).file_access := by
  have hp : normSep (normalize_path rel file_path) =
      normalize_path rel file_path := by
    unfold normalize_path
    exact normSep_idem _
  have h3 : NormOK (add_access (normalize_path rel file_path) access_type
      (normalize_pass setU (ctx.file_access.getD []))) :=
    add_access_normOK _ _ _ hp (normalize_pass_normOK _ _)
  obtain ⟨cur, hl, ha⟩ := add_access_lookup (normalize_path rel file_path)
    access_type (normalize_pass setU (ctx.file_access.getD []))
  rw [record_access_file_access, record_access_file_access]
  simp only [Option.getD_some]
  rw [normalize_pass_of_normOK _ _ h3,
    add_access_already _ _ _ cur hl ha]

/-- Assignment preserves a predicate on all values when the new value
satisfies it. -/
theorem values_aset_pred {α : Type} (P : α → Prop) :
    ∀ (m : List (String × α)) (k : String) (v : α),
      (∀ x ∈ values m, P x) → P v → ∀ x ∈ values (aset m k v), P x := by
  intro m
  induction m with
  | nil =>
    intro k v hm hv x hx
    simp only [aset, values, List.map_cons, List.map_nil,
      List.mem_singleton] at hx
    subst hx
    exact hv
  | cons p rest ih =>
    obtain ⟨k', v'⟩ := p
    intro k v hm hv x hx
    have hmhead : P v' := hm v' (by simp [values])
    have hmtail : ∀ y ∈ values rest, P y := by
      intro y hy
      refine hm y ?_
      simp only [values, List.map_cons, List.mem_cons]
      exact Or.inr hy
    by_cases h : k' = k
    · simp only [aset, if_pos h, values, List.map_cons, List.mem_cons]
        at hx
      rcases hx with hx | hx
      · subst hx; exact hv
      · exact hmtail x hx
    · simp only [aset, if_neg h, values, List.map_cons, List.mem_cons]
        at hx
      rcases hx with hx | hx
      · subst hx; exact hmhead
      · exact ih k v hmtail hv x hx

/-- One normalization step preserves a predicate on all values, provided
`setU` always returns values satisfying it. -/
theorem normStep_values_pred (P : List String → Prop)
    (setU : List String → List String)
    (acc : List (String × List String)) (pa : String × List String)
    (hacc : ∀ x ∈ values acc, P x) (hpa : P pa.2)
    (hsetU : ∀ l, P (setU l)) :
    ∀ x ∈ values (normStep setU acc pa), P x := by
  rcases heq : alookup acc (normSep pa.1) with _ | cur
  · have hred : normStep setU acc pa = aset acc (normSep pa.1) pa.2 := by
      simp only [normStep, heq]
    rw [hred]
    exact values_aset_pred P _ _ _ hacc hpa
  · have hred : normStep setU acc pa =
        aset acc (normSep pa.1) (setU (cur ++ pa.2)) := by
      simp only [normStep, heq]
    rw [hred]
    exact values_aset_pred P _ _ _ hacc (hsetU _)

/-- Folding normalization steps preserves a predicate on all values. -/
theorem foldl_normStep_values_pred (P : List String → Prop)
    (setU : List String → List String)
    (m : List (String × List String)) :
    ∀ acc, (∀ x ∈ values acc, P x) → (∀ x ∈ values m, P x) →
      (∀ l, P (setU l)) →
      ∀ x ∈ values (m.foldl (normStep setU) acc), P x := by
  induction m with
  | nil => intro acc hacc _ _; exact hacc
  | cons pa rest ih =>
    intro acc hacc hm hsetU
    have hmhead : P pa.2 := by
      refine hm pa.2 ?_
      simp [values]
    have hmtail : ∀ x ∈ values rest, P x := by
      intro x hx
      refine hm x ?_
      simp only [values, List.map_cons, List.mem_cons]
      exact Or.inr hx
    exact ih _ (normStep_values_pred P setU acc pa hacc hmhead hsetU)
      hmtail hsetU

/-- The normalization pass preserves a predicate on all values. -/
theorem normalize_pass_values_pred (P : List String → Prop)
    (setU : List String → List String)
    (m : List (String × List String))
    (hm : ∀ x ∈ values m, P x) (hsetU : ∀ l, P (setU l)) :
    ∀ x ∈ values (normalize_pass setU m), P x :=
  foldl_normStep_values_pred P setU m []
    (by intro x hx; simp [values] at hx) hm hsetU

/-- A value reached by lookup is among the values. -/
theorem alookup_mem_values {α : Type} {m : List (String × α)} {k : String}
    {v : α} (h : alookup m k = some v) : v ∈ values m := by
  induction m with
  | nil => cases h
  | cons p rest ih =>
    obtain ⟨k', v'⟩ := p
    by_cases hk : k' = k
    · simp only [alookup, if_pos hk] at h
      injection h with h
      subst h
      simp [values]
    · simp only [alookup, if_neg hk] at h
      simp only [values, List.map_cons, List.mem_cons]
      exact Or.inr (ih h)

/-- Recording an access keeps every value list duplicate-free. -/
theorem add_access_values_nodup (p a : String)
    (fa : List (String × List String))
    (h : ∀ x ∈ values fa, x.Nodup) :
    ∀ x ∈ values (add_access p a fa), x.Nodup := by
  rcases add_access_cases p a fa with ⟨cur, hl, ha, he⟩ |
    ⟨cur, hl, ha, he⟩ | ⟨hl, he⟩
  · rw [he]; exact h
  · rw [he]
    refine values_aset_pred _ _ _ _ h ?_
    have hcur : cur.Nodup := h cur (alookup_mem_values hl)
    refine List.Nodup.append hcur (List.nodup_singleton _) ?_
    intro x hx hx'
    simp only [List.mem_singleton] at hx'
    subst hx'
    exact ha hx
  · rw [he]
    refine values_aset_pred _ _ _ _ ?_ (List.nodup_singleton _)
    intro x hx
    simp only [values, List.map_append, List.map_cons, List.map_nil]
      at hx
    rcases List.mem_append.mp hx with hx | hx
    · exact h x hx
    · simp only [List.mem_singleton] at hx
      subst hx
      exact List.nodup_nil

/-- Claim C10: if every access-kind list in the ledger is duplicate-free
and the `list(set(...))` oracle always returns duplicate-free lists (as
CPython guarantees), then after any `record_access` call every value
list in `file_access` still contains each access kind at most once. -/
theorem claim_C10_ledger_values_nodup
    (setU : List String → List String) (rel : String → Option String)
    (ctx : TaskContext) (file_path access_type : String)
    (hsetU : ∀ l, (setU l).Nodup)
    (hctx : ∀ v ∈ values (ctx.file_access.getD []), v.Nodup) :
    ∀ v ∈ values
      ((record_access setU rel ctx file_path access_type).file_access.getD
        []), v.Nodup := by
  rw [record_access_file_access]
  simp only [Option.getD_some]
  exact add_access_values_nodup _ _ _
    (normalize_pass_values_pred _ _ _ hctx hsetU)

/-- Concrete instance of claim C10: recording a write on a fresh path in
a ledger holding one duplicate-free entry keeps all entries
duplicate-free. -/
theorem claim_C10_ledger_values_nodup_witness :
    (∀ l : List String, l.dedup.Nodup) ∧
    (∀ v ∈ values (ctxBadTs.file_access.getD []), v.Nodup) ∧
    (∀ v ∈ values
      ((record_access List.dedup (fun _ => none) ctxBadTs "b.txt"
        "write").file_access.getD []), v.Nodup) :=
  ⟨fun l => List.nodup_dedup l, by decide,
    claim_C10_ledger_values_nodup List.dedup (fun _ => none) ctxBadTs
      "b.txt" "write" (fun l => List.nodup_dedup l) (by decide)⟩

/-- Claim C6: on a ledger holding the two keys `a\b.txt` (read) and
`a/b.txt` (write), which rewrite to the same slash-separated string, one
normalization pass (the loop `record_access` runs on every call) leaves
exactly one key `a/b.txt` whose access set is the union of the two
original sets with no duplicates — for every behaviour of
`list(set(...))` that preserves elements and returns no duplicates. -/
theorem claim_C6_merge (setU : List String → List String)
    (hfin : ∀ l, (setU l).toFinset = l.toFinset)
    (hnd : ∀ l, (setU l).Nodup) :
    ∃ v, normalize_pass setU
        [("a\\b.txt", ["read"]), ("a/b.txt", ["write"])] =
        [("a/b.txt", v)] ∧
      v.toFinset = {"read", "write"} ∧ v.Nodup := by
  refine ⟨setU (["read"] ++ ["write"]), ?_, ?_, hnd _⟩
  · rfl
  · rw [hfin]
    decide

/-- Concrete instance of claim C6 with `list(set(...))` realized as
first-occurrence deduplication. -/
theorem claim_C6_merge_witness :
    (∀ l : List String, l.dedup.toFinset = l.toFinset) ∧
    (∀ l : List String, l.dedup.Nodup) ∧
    (∃ v, normalize_pass List.dedup
        [("a\\b.txt", ["read"]), ("a/b.txt", ["write"])] =
        [("a/b.txt", v)] ∧
      v.toFinset = {"read", "write"} ∧ v.Nodup) := by
  have h1 : ∀ l : List String, l.dedup.toFinset = l.toFinset := by
    intro l
    ext a
    simp [List.mem_toFinset, List.mem_dedup]
  exact ⟨h1, fun l => List.nodup_dedup l,
    claim_C6_merge List.dedup h1 (fun l => List.nodup_dedup l)⟩
